import Mathlib

/-!
# Verification of the Q&A vote/accept consistency model

A shallow embedding of the vote-ledger and acceptance-state logic of the
Q&A backend:

* `voteCore` embeds the body of `answerSchema.methods.vote` and
  `questionSchema.methods.vote` (the two method bodies are textually
  identical in the source): a first-match scan over `voteHistory`
  (`findIndex` on `vote.user`), with the three cases
  toggle-off (`splice`), change-vote (in-place update), and new-vote
  (`push` at the end).
* `getUserVoteCore` embeds `getUserVote` (first-match `find`).
* The route handlers (`POST /:id/vote`, `PATCH /:id/accept`,
  `PATCH /:id/unaccept`, `DELETE /:id`) are embedded as pure transition
  functions over a document store `Db`; an `Except.error` result models an
  early HTTP error response, which performs no writes (every handler does
  all its reads and checks before its first save).

Document ids and user ids are modelled as `Nat` (Mongo ObjectIds compared
via `toString() ===` equality in the source). Timestamps (`createdAt`) are
omitted: no property here depends on them.
-/

namespace QA

/-- A vote direction, the `enum: ['up', 'down']` of `voteHistory[*].vote`
(the route validator rejects any other value before the model method runs). -/
inductive VoteDir where
  | up
  | down
deriving DecidableEq, Repr

/-- Numeric contribution of a direction: up = +1, down = -1. -/
def dirVal : VoteDir → Int
  | .up => 1
  | .down => -1

/-- One entry of `voteHistory`: a voter id and their current direction
(`createdAt` omitted). -/
structure VoteEntry where
  user : Nat
  vote : VoteDir
deriving DecidableEq, Repr

/-- Body of `answerSchema.methods.vote` / `questionSchema.methods.vote`
(identical in the two schemas), acting on the `(votes, voteHistory)` pair:
scan `voteHistory` for the first entry whose `user` equals `userId`
(`findIndex`); if found with the same direction, remove it and subtract the
existing entry's contribution (`votes -= existingVote.vote === 'up' ? 1 : -1`;
`splice`); if found with the other direction, overwrite the entry's direction
in place and add `2`/`-2` (`votes += voteType === 'up' ? 2 : -2`); if absent,
append a new entry at the end (`push`) and add the direction's contribution. -/
def voteCore (votes : Int) (history : List VoteEntry) (userId : Nat)
    (voteType : VoteDir) : Int × List VoteEntry :=
  match history with
  | [] => (votes + dirVal voteType, [⟨userId, voteType⟩])
  | existingVote :: rest =>
    if existingVote.user = userId then
      if existingVote.vote = voteType then
        (votes - dirVal existingVote.vote, rest)
      else
        (votes + 2 * dirVal voteType, ⟨existingVote.user, voteType⟩ :: rest)
    else
      let r := voteCore votes rest userId voteType
      (r.1, existingVote :: r.2)

/-- Body of `getUserVote`: the first history entry of this voter, if any
(`voteHistory.find(...)` then `vote ? vote.vote : null`). -/
def getUserVoteCore (history : List VoteEntry) (userId : Nat) : Option VoteDir :=
  (history.find? (fun v => v.user == userId)).map (·.vote)

/-- Fold a sequence of `(voterId, direction)` calls through `voteCore`,
starting from a given `(votes, voteHistory)` state. -/
def applyVotes (s : Int × List VoteEntry) (ops : List (Nat × VoteDir)) :
    Int × List VoteEntry :=
  ops.foldl (fun s op => voteCore s.1 s.2 op.1 op.2) s

/-- The score recomputable from a ledger: the sum of its directions. -/
def ledgerScore (history : List VoteEntry) : Int :=
  (history.map (fun e => dirVal e.vote)).sum

/-- A Question document: the fields of `questionSchema` that the vote and
acceptance logic reads or writes (`title`, `description`, `tags`, `views`,
`isClosed` play no role and are omitted). -/
structure QuestionDoc where
  askedBy : Nat
  votes : Int
  acceptedAnswer : Option Nat
  isDeleted : Bool
  voteHistory : List VoteEntry
deriving DecidableEq, Repr

/-- An Answer document: the fields of `answerSchema` that the vote,
acceptance and delete logic reads or writes (`content` omitted). -/
structure AnswerDoc where
  questionId : Nat
  answeredBy : Nat
  votes : Int
  isAccepted : Bool
  isDeleted : Bool
  voteHistory : List VoteEntry
deriving DecidableEq, Repr

/-- `questionSchema.methods.vote` applied to a Question document. -/
def QuestionDoc.vote (q : QuestionDoc) (userId : Nat) (voteType : VoteDir) :
    QuestionDoc :=
  let r := voteCore q.votes q.voteHistory userId voteType
  { q with votes := r.1, voteHistory := r.2 }

/-- `answerSchema.methods.vote` applied to an Answer document. -/
def AnswerDoc.vote (a : AnswerDoc) (userId : Nat) (voteType : VoteDir) :
    AnswerDoc :=
  let r := voteCore a.votes a.voteHistory userId voteType
  { a with votes := r.1, voteHistory := r.2 }

/-- `answerSchema.methods.accept`: set `isAccepted` to true. -/
def AnswerDoc.accept (a : AnswerDoc) : AnswerDoc :=
  { a with isAccepted := true }

/-- `answerSchema.methods.unaccept`: set `isAccepted` to false. -/
def AnswerDoc.unaccept (a : AnswerDoc) : AnswerDoc :=
  { a with isAccepted := false }

/-- A Notification document as inserted by `NotificationService`
(`recipientId`, `senderId` and the `type` discriminator; the display
strings, link and `read` flag are irrelevant to the claims). -/
structure NotificationDoc where
  recipientId : Nat
  senderId : Nat
  ntype : String
deriving DecidableEq, Repr

/-- The document store: `findById` on the questions and answers
collections, plus the notifications collection. -/
structure Db where
  questions : Nat → Option QuestionDoc
  answers : Nat → Option AnswerDoc
  notifications : List NotificationDoc

/-- Persist (`save`) a question document under its id. -/
def Db.setQuestion (db : Db) (id : Nat) (q : QuestionDoc) : Db :=
  { db with questions := fun i => if i = id then some q else db.questions i }

/-- Persist (`save`) an answer document under its id. -/
def Db.setAnswer (db : Db) (id : Nat) (a : AnswerDoc) : Db :=
  { db with answers := fun i => if i = id then some a else db.answers i }

/-- Insert a notification document (`Notification.create`). -/
def Db.addNotification (db : Db) (n : NotificationDoc) : Db :=
  { db with notifications := db.notifications ++ [n] }

/-- The error taxonomy of the HTTP layer: 404 = `NotFound`,
403 = `Forbidden`, 400 business-rule violation = `InvalidOperation`,
400 validator failure = `ValidationError`. -/
inductive Err where
  | NotFound
  | Forbidden
  | InvalidOperation
  | ValidationError
deriving DecidableEq, Repr

@[simp] theorem setQuestion_questions (db : Db) (id : Nat) (q : QuestionDoc)
    (i : Nat) :
    (db.setQuestion id q).questions i = if i = id then some q else db.questions i :=
  rfl

@[simp] theorem setQuestion_answers (db : Db) (id : Nat) (q : QuestionDoc)
    (i : Nat) :
    (db.setQuestion id q).answers i = db.answers i :=
  rfl

@[simp] theorem setAnswer_answers (db : Db) (id : Nat) (a : AnswerDoc)
    (i : Nat) :
    (db.setAnswer id a).answers i = if i = id then some a else db.answers i :=
  rfl

@[simp] theorem setAnswer_questions (db : Db) (id : Nat) (a : AnswerDoc)
    (i : Nat) :
    (db.setAnswer id a).questions i = db.questions i :=
  rfl

@[simp] theorem addNotification_questions (db : Db) (n : NotificationDoc)
    (i : Nat) :
    (db.addNotification n).questions i = db.questions i :=
  rfl

@[simp] theorem addNotification_answers (db : Db) (n : NotificationDoc)
    (i : Nat) :
    (db.addNotification n).answers i = db.answers i :=
  rfl

/-- Handler of `PATCH /api/answers/:id/accept`. Reads the answer
(404 if absent or soft-deleted), reads its parent question (404 likewise),
requires the requester to own the question (403 otherwise), unaccepts the
previously accepted answer when the question's pointer is set and that
document still exists (no soft-delete check on it, as in the source), then
accepts the target answer and points the question at it. The trailing
`notifyAnswerAccepted` call is wrapped in try/catch in the source, so a
failed emission (`notifyOk = false`) inserts nothing and is otherwise
ignored. An `Except.error` result models an early error response: the
handler has performed no write at that point. -/
def acceptAnswerRoute (db : Db) (answerId : Nat) (userId : Nat)
    (notifyOk : Bool) : Except Err Db :=
  match db.answers answerId with
  | none => .error .NotFound
  | some answer =>
    if answer.isDeleted then .error .NotFound else
    match db.questions answer.questionId with
    | none => .error .NotFound
    | some question =>
      if question.isDeleted then .error .NotFound else
      if question.askedBy ≠ userId then .error .Forbidden else
      let db1 :=
        match question.acceptedAnswer with
        | some prevId =>
          match db.answers prevId with
          | some previousAnswer => db.setAnswer prevId previousAnswer.unaccept
          | none => db
        | none => db
      let db2 := db1.setAnswer answerId answer.accept
      let db3 := db2.setQuestion answer.questionId
        { question with acceptedAnswer := some answerId }
      let db4 :=
        if notifyOk then
          db3.addNotification ⟨answer.answeredBy, answer.answeredBy, "accept"⟩
        else db3
      .ok db4

/-- Handler of `PATCH /api/answers/:id/unaccept`. Reads the answer
(404 if absent or soft-deleted), its parent question (404 likewise),
requires the requester to own the question (403), requires the answer to be
currently accepted (400, `InvalidOperation`, otherwise), then clears the
answer's flag and the question's pointer. -/
def unacceptAnswerRoute (db : Db) (answerId : Nat) (userId : Nat) :
    Except Err Db :=
  match db.answers answerId with
  | none => .error .NotFound
  | some answer =>
    if answer.isDeleted then .error .NotFound else
    match db.questions answer.questionId with
    | none => .error .NotFound
    | some question =>
      if question.isDeleted then .error .NotFound else
      if question.askedBy ≠ userId then .error .Forbidden else
      if !answer.isAccepted then .error .InvalidOperation else
      let db1 := db.setAnswer answerId answer.unaccept
      let db2 := db1.setQuestion answer.questionId
        { question with acceptedAnswer := none }
      .ok db2

/-- Handler of `POST /api/questions/:id/vote` (the direction has already
passed the `isIn(['up','down'])` validator, which `VoteDir` captures).
Reads the question (404 if absent or soft-deleted), rejects a self-vote
(400, `InvalidOperation`), applies `question.vote`, then attempts the
`notifyVoteReceived` emission inside try/catch (the service itself skips a
self-notification, a dead guard after the self-vote check); the response
carries the updated `votes`. -/
def voteQuestionRoute (db : Db) (questionId : Nat) (userId : Nat)
    (dir : VoteDir) (notifyOk : Bool) : Except Err (Db × Int) :=
  match db.questions questionId with
  | none => .error .NotFound
  | some question =>
    if question.isDeleted then .error .NotFound else
    if question.askedBy = userId then .error .InvalidOperation else
    let question2 := question.vote userId dir
    let db1 := db.setQuestion questionId question2
    let db2 :=
      if notifyOk && !(userId == question.askedBy) then
        db1.addNotification ⟨question.askedBy, userId, "vote"⟩
      else db1
    .ok (db2, question2.votes)

/-- Handler of `POST /api/answers/:id/vote`, mirroring the question vote
handler on the answers collection. -/
def voteAnswerRoute (db : Db) (answerId : Nat) (userId : Nat)
    (dir : VoteDir) (notifyOk : Bool) : Except Err (Db × Int) :=
  match db.answers answerId with
  | none => .error .NotFound
  | some answer =>
    if answer.isDeleted then .error .NotFound else
    if answer.answeredBy = userId then .error .InvalidOperation else
    let answer2 := answer.vote userId dir
    let db1 := db.setAnswer answerId answer2
    let db2 :=
      if notifyOk && !(userId == answer.answeredBy) then
        db1.addNotification ⟨answer.answeredBy, userId, "vote"⟩
      else db1
    .ok (db2, answer2.votes)

/-- Handler of `DELETE /api/answers/:id`. Reads the answer (404 if absent
or already soft-deleted), requires the requester to be its author or an
admin (403), refuses to delete an accepted answer (400,
`InvalidOperation`), then soft-deletes. -/
def deleteAnswerRoute (db : Db) (answerId : Nat) (userId : Nat)
    (isAdmin : Bool) : Except Err Db :=
  match db.answers answerId with
  | none => .error .NotFound
  | some answer =>
    if answer.isDeleted then .error .NotFound else
    if answer.answeredBy ≠ userId ∧ ¬isAdmin then .error .Forbidden else
    if answer.isAccepted then .error .InvalidOperation else
    .ok (db.setAnswer answerId { answer with isDeleted := true })

/-- One request against the acceptance state: an accept or an unaccept,
by a given requester, on a given answer id. -/
inductive AcceptOp where
  | accept (answerId userId : Nat)
  | unaccept (answerId userId : Nat)

/-- Run one acceptance request; an error response leaves the store as it
was. -/
def applyAcceptOp (db : Db) (op : AcceptOp) : Db :=
  match op with
  | .accept aid uid =>
    match acceptAnswerRoute db aid uid true with
    | .ok db2 => db2
    | .error _ => db
  | .unaccept aid uid =>
    match unacceptAnswerRoute db aid uid with
    | .ok db2 => db2
    | .error _ => db

/-- Run a sequence of acceptance requests. -/
def applyAcceptOps (db : Db) (ops : List AcceptOp) : Db :=
  ops.foldl applyAcceptOp db

/-- The single-accepted-answer invariant at one question: every accepted
answer of the question is the one its pointer designates (hence there is at
most one), and a set pointer designates an existing answer of the question
whose flag is true. -/
def AcceptInvFor (db : Db) (qid : Nat) (q : QuestionDoc) : Prop :=
  (∀ aid a, db.answers aid = some a → a.questionId = qid →
    a.isAccepted = true → q.acceptedAnswer = some aid) ∧
  (∀ aid, q.acceptedAnswer = some aid →
    ∃ a, db.answers aid = some a ∧ a.questionId = qid ∧ a.isAccepted = true)

/-- The single-accepted-answer invariant at every question of the store. -/
def AcceptInv (db : Db) : Prop :=
  ∀ qid q, db.questions qid = some q → AcceptInvFor db qid q

@[simp] theorem ledgerScore_nil : ledgerScore [] = 0 := rfl

@[simp] theorem ledgerScore_cons (e : VoteEntry) (h : List VoteEntry) :
    ledgerScore (e :: h) = dirVal e.vote + ledgerScore h := by
  simp [ledgerScore]

theorem voteCore_cons (v : Int) (e : VoteEntry) (rest : List VoteEntry)
    (u : Nat) (d : VoteDir) :
    voteCore v (e :: rest) u d =
      if e.user = u then
        if e.vote = d then (v - dirVal e.vote, rest)
        else (v + 2 * dirVal d, ⟨e.user, d⟩ :: rest)
      else ((voteCore v rest u d).1, e :: (voteCore v rest u d).2) :=
  rfl

theorem getUserVoteCore_cons (e : VoteEntry) (rest : List VoteEntry) (u : Nat) :
    getUserVoteCore (e :: rest) u =
      if e.user = u then some e.vote else getUserVoteCore rest u := by
  by_cases hu : e.user = u
  · rw [if_pos hu, getUserVoteCore,
      @List.find?_cons_of_pos VoteEntry (fun x => x.user == u) e rest (by simpa using hu),
      Option.map_some']
  · rw [if_neg hu, getUserVoteCore,
      @List.find?_cons_of_neg VoteEntry (fun x => x.user == u) e rest (by simpa using hu)]
    rfl

/-- `vote` moves the cached score by exactly the change it makes to the
recomputable ledger sum. -/
theorem voteCore_score (v : Int) (h : List VoteEntry) (u : Nat) (d : VoteDir) :
    (voteCore v h u d).1 + ledgerScore h = v + ledgerScore (voteCore v h u d).2 := by
  induction h generalizing v with
  | nil => simp [voteCore]
  | cons e rest ih =>
    rw [voteCore_cons]
    by_cases hu : e.user = u
    · rw [if_pos hu]
      by_cases hv : e.vote = d
      · rw [if_pos hv]
        simp only [ledgerScore_cons]
        ring
      · rw [if_neg hv]
        simp only [ledgerScore_cons]
        cases hde : d <;> cases hve : e.vote <;>
          simp_all [dirVal] <;> ring
    · rw [if_neg hu]
      simp only [ledgerScore_cons]
      have := ih v
      linarith

/-- Every voter present after a `vote` call was present before or is the
caller. -/
theorem voteCore_users_subset (v : Int) (h : List VoteEntry) (u : Nat)
    (d : VoteDir) :
    ∀ x ∈ (voteCore v h u d).2.map (fun e => e.user),
      x ∈ h.map (fun e => e.user) ∨ x = u := by
  induction h generalizing v with
  | nil => simp [voteCore]
  | cons e rest ih =>
    rw [voteCore_cons]
    by_cases hu : e.user = u
    · rw [if_pos hu]
      by_cases hv : e.vote = d
      · rw [if_pos hv]
        intro x hx
        rw [List.map_cons]
        exact Or.inl (List.mem_cons_of_mem _ hx)
      · rw [if_neg hv]
        intro x hx
        dsimp only at hx
        rw [List.map_cons] at hx
        rw [List.map_cons]
        rcases List.mem_cons.mp hx with hx | hx
        · exact Or.inr (hx.trans hu)
        · exact Or.inl (List.mem_cons.mpr (Or.inr hx))
    · rw [if_neg hu]
      intro x hx
      dsimp only at hx
      rw [List.map_cons] at hx
      rw [List.map_cons]
      rcases List.mem_cons.mp hx with hx | hx
      · exact Or.inl (List.mem_cons.mpr (Or.inl hx))
      · rcases ih v x hx with h' | h'
        · exact Or.inl (List.mem_cons.mpr (Or.inr h'))
        · exact Or.inr h'

/-- `vote` never introduces a duplicate voter into the ledger. -/
theorem voteCore_users_nodup (v : Int) (h : List VoteEntry) (u : Nat)
    (d : VoteDir) (hnd : (h.map (fun e => e.user)).Nodup) :
    ((voteCore v h u d).2.map (fun e => e.user)).Nodup := by
  induction h generalizing v with
  | nil => simp [voteCore]
  | cons e rest ih =>
    rw [voteCore_cons]
    rw [List.map_cons, List.nodup_cons] at hnd
    by_cases hu : e.user = u
    · rw [if_pos hu]
      by_cases hv : e.vote = d
      · rw [if_pos hv]
        exact hnd.2
      · rw [if_neg hv]
        dsimp only
        rw [List.map_cons, List.nodup_cons]
        exact ⟨hnd.1, hnd.2⟩
    · rw [if_neg hu]
      dsimp only
      rw [List.map_cons, List.nodup_cons]
      refine ⟨fun hmem => ?_, ih v hnd.2⟩
      rcases voteCore_users_subset v rest u d e.user hmem with h' | h'
      · exact hnd.1 h'
      · exact hu h'

theorem vote_ledger_invariant_aux (ops : List (Nat × VoteDir))
    (s : Int × List VoteEntry)
    (hnd : (s.2.map (fun e => e.user)).Nodup) (hsc : s.1 = ledgerScore s.2) :
    ((applyVotes s ops).2.map (fun e => e.user)).Nodup ∧
      (applyVotes s ops).1 = ledgerScore (applyVotes s ops).2 := by
  induction ops generalizing s with
  | nil => exact ⟨hnd, hsc⟩
  | cons op rest ih =>
    have hstep : applyVotes s (op :: rest) = applyVotes (voteCore s.1 s.2 op.1 op.2) rest := by
      simp [applyVotes]
    rw [hstep]
    refine ih _ (voteCore_users_nodup _ _ _ _ hnd) ?_
    have hs := voteCore_score s.1 s.2 op.1 op.2
    linarith

/-- C2: starting from score 0 and an empty ledger, any sequence of `vote`
calls leaves a ledger with at most one entry per voter and a cached score
equal to the sum of the ledger's directions. -/
theorem vote_ledger_invariant (ops : List (Nat × VoteDir)) :
    ((applyVotes (0, []) ops).2.map (fun e => e.user)).Nodup ∧
      (applyVotes (0, []) ops).1 = ledgerScore (applyVotes (0, []) ops).2 :=
  vote_ledger_invariant_aux ops (0, []) (by simp) (by simp)

/-- When the caller has no ledger entry, `vote` appends a fresh entry at the
end and adds its contribution. -/
theorem voteCore_not_found (v : Int) (h : List VoteEntry) (u : Nat)
    (d : VoteDir) (hu : ∀ e ∈ h, e.user ≠ u) :
    voteCore v h u d = (v + dirVal d, h ++ [⟨u, d⟩]) := by
  induction h generalizing v with
  | nil => simp [voteCore]
  | cons e rest ih =>
    rw [voteCore_cons]
    have hne : e.user ≠ u := hu e (List.mem_cons_self e rest)
    rw [if_neg hne, ih v (fun x hx => hu x (List.mem_cons_of_mem e hx))]
    rfl

/-- Toggling off the entry appended at the end of an otherwise caller-free
ledger removes exactly that entry and its contribution. -/
theorem voteCore_toggle_last (v : Int) (h : List VoteEntry) (u : Nat)
    (d : VoteDir) (hu : ∀ e ∈ h, e.user ≠ u) :
    voteCore v (h ++ [⟨u, d⟩]) u d = (v - dirVal d, h) := by
  induction h generalizing v with
  | nil => simp [voteCore]
  | cons e rest ih =>
    have hne : e.user ≠ u := hu e (List.mem_cons_self e rest)
    rw [List.cons_append, voteCore_cons]
    rw [if_neg hne, ih v (fun x hx => hu x (List.mem_cons_of_mem e hx))]

/-- C4 (amended): when the voter has no existing ledger entry on the item,
casting the same direction twice in a row returns the score and the ledger
to exactly their pre-first-vote values. -/
theorem vote_toggle_off (v : Int) (h : List VoteEntry) (u : Nat) (d : VoteDir)
    (hu : getUserVoteCore h u = none) :
    applyVotes (v, h) [(u, d), (u, d)] = (v, h) := by
  have hu' : ∀ e ∈ h, e.user ≠ u := by
    intro e he
    simp only [getUserVoteCore, Option.map_eq_none'] at hu
    have := List.find?_eq_none.mp hu e he
    simpa using this
  simp only [applyVotes, List.foldl_cons, List.foldl_nil]
  rw [voteCore_not_found v h u d hu']
  rw [voteCore_toggle_last (v + dirVal d) h u d hu']
  simp

/-- C4 witness: a fresh voter toggling up twice on an empty item leaves it
untouched. -/
theorem vote_toggle_off_witness :
    applyVotes (0, []) [(1, VoteDir.up), (1, VoteDir.up)] = (0, []) :=
  vote_toggle_off 0 [] 1 VoteDir.up (by simp [getUserVoteCore])

/-- C4 counterexample: on an item where voter 1 already holds a down vote
(score -1), casting up twice does not return the item to its pre-first-vote
score (it ends at 0): the toggle-off round trip fails from states where the
voter already has an entry. -/
theorem vote_toggle_off_counterexample :
    ¬((applyVotes (-1, [⟨1, VoteDir.down⟩]) [(1, VoteDir.up), (1, VoteDir.up)]).1 = -1 ∧
      ∀ e ∈ (applyVotes (-1, [⟨1, VoteDir.down⟩]) [(1, VoteDir.up), (1, VoteDir.up)]).2,
        e.user ≠ 1) := by
  decide

/-- C5: when the voter's existing entry (first match of the ledger scan)
carries the opposite direction, `vote` moves the score by exactly twice the
new direction, the voter's entry now reads the new direction, and the roster
of voters (with positions) is unchanged. -/
theorem vote_opposite_replaces (v : Int) (h : List VoteEntry) (u : Nat)
    (d d' : VoteDir) (hd : getUserVoteCore h u = some d') (hne : d' ≠ d) :
    (voteCore v h u d).1 = v + 2 * dirVal d ∧
    getUserVoteCore (voteCore v h u d).2 u = some d ∧
    (voteCore v h u d).2.map (fun e => e.user) = h.map (fun e => e.user) := by
  induction h generalizing v with
  | nil => simp [getUserVoteCore] at hd
  | cons e rest ih =>
    by_cases hu : e.user = u
    · rw [getUserVoteCore_cons, if_pos hu] at hd
      have hev : e.vote = d' := by injection hd
      have hvne : e.vote ≠ d := hev ▸ hne
      rw [voteCore_cons, if_pos hu, if_neg hvne]
      refine ⟨rfl, ?_, by rw [List.map_cons, List.map_cons]⟩
      rw [getUserVoteCore_cons]
      exact if_pos hu
    · rw [getUserVoteCore_cons, if_neg hu] at hd
      rw [voteCore_cons, if_neg hu]
      obtain ⟨h1, h2, h3⟩ := ih v hd
      refine ⟨h1, ?_, ?_⟩
      · dsimp only
        rw [getUserVoteCore_cons, if_neg hu]
        exact h2
      · dsimp only
        rw [List.map_cons, List.map_cons, h3]

/-- C5 witness: voter 1 holds a down vote on a score -1 item; voting up
yields score 1 and an up entry, with the voter roster unchanged. -/
theorem vote_opposite_replaces_witness :
    (voteCore (-1) [⟨1, VoteDir.down⟩] 1 VoteDir.up).1 = -1 + 2 * dirVal VoteDir.up ∧
    getUserVoteCore (voteCore (-1) [⟨1, VoteDir.down⟩] 1 VoteDir.up).2 1 = some VoteDir.up ∧
    (voteCore (-1) [⟨1, VoteDir.down⟩] 1 VoteDir.up).2.map (fun e => e.user)
      = ([⟨1, VoteDir.down⟩] : List VoteEntry).map (fun e => e.user) :=
  vote_opposite_replaces (-1) [⟨1, VoteDir.down⟩] 1 VoteDir.up VoteDir.down
    (by decide) (by decide)

/-- The question of the concrete voting scenario: fresh, score 0, empty
ledger, asked by user 100. -/
def scenarioQuestion : QuestionDoc :=
  { askedBy := 100, votes := 0, acceptedAnswer := none, isDeleted := false,
    voteHistory := [] }

/-- A question asked by user 10 whose accepted answer is answer 1. -/
def exampleQuestion : QuestionDoc :=
  { askedBy := 10, votes := 0, acceptedAnswer := some 1, isDeleted := false,
    voteHistory := [] }

/-- Answer 1 of question 0, by user 11, currently accepted. -/
def exampleAcceptedAnswer : AnswerDoc :=
  { questionId := 0, answeredBy := 11, votes := 0, isAccepted := true,
    isDeleted := false, voteHistory := [] }

/-- Answer 2 of question 0, by user 12, not accepted. -/
def exampleOtherAnswer : AnswerDoc :=
  { questionId := 0, answeredBy := 12, votes := 0, isAccepted := false,
    isDeleted := false, voteHistory := [] }

/-- A store with question 0 and its two answers 1 (accepted) and 2. -/
def exampleDb : Db :=
  { questions := fun i => if i = 0 then some exampleQuestion else none,
    answers := fun i =>
      if i = 1 then some exampleAcceptedAnswer
      else if i = 2 then some exampleOtherAnswer else none,
    notifications := [] }

/-- Question 0 in its initial state: no accepted answer. -/
def exampleFreshQuestion : QuestionDoc :=
  { askedBy := 10, votes := 0, acceptedAnswer := none, isDeleted := false,
    voteHistory := [] }

/-- The store before any acceptance: question 0 fresh, answers 1 and 2 both
unaccepted. -/
def exampleFreshDb : Db :=
  { questions := fun i => if i = 0 then some exampleFreshQuestion else none,
    answers := fun i =>
      if i = 1 then some { exampleAcceptedAnswer with isAccepted := false }
      else if i = 2 then some exampleOtherAnswer else none,
    notifications := [] }

/-- C8: on a fresh item, `vote(u1,up); vote(u2,down); vote(u1,down);
vote(u1,down)` produces scores 1, 0, -2, -1, and the final ledger holds
only u2's entry. -/
theorem vote_concrete_scenario :
    (scenarioQuestion.vote 1 .up).votes = 1 ∧
    ((scenarioQuestion.vote 1 .up).vote 2 .down).votes = 0 ∧
    (((scenarioQuestion.vote 1 .up).vote 2 .down).vote 1 .down).votes = -2 ∧
    ((((scenarioQuestion.vote 1 .up).vote 2 .down).vote 1 .down).vote 1 .down).votes = -1 ∧
    ((((scenarioQuestion.vote 1 .up).vote 2 .down).vote 1 .down).vote 1 .down).voteHistory
      = [⟨2, VoteDir.down⟩] := by
  decide

/-- C3: with the target answer and its question both present and live, the
accept handler (a) rejects any requester other than the question's author
with `Forbidden` (an error response performs no write), and (b) for the
author, when a different answer was accepted before the call, produces a
store where the previous answer's flag is cleared, the target's flag is
set, and the question points at the target. -/
theorem acceptAnswer_correct (db : Db) (aid uid : Nat) (notifyOk : Bool)
    (answer : AnswerDoc) (question : QuestionDoc)
    (hA : db.answers aid = some answer) (hAd : answer.isDeleted = false)
    (hQ : db.questions answer.questionId = some question)
    (hQd : question.isDeleted = false) :
    (question.askedBy ≠ uid →
      acceptAnswerRoute db aid uid notifyOk = .error .Forbidden) ∧
    (question.askedBy = uid →
      ∀ prevId prev, question.acceptedAnswer = some prevId → prevId ≠ aid →
        db.answers prevId = some prev →
        ∃ db', acceptAnswerRoute db aid uid notifyOk = .ok db' ∧
          db'.answers prevId = some prev.unaccept ∧
          db'.answers aid = some answer.accept ∧
          db'.questions answer.questionId
            = some { question with acceptedAnswer := some aid }) := by
  constructor
  · intro hne
    simp only [acceptAnswerRoute, hA, hAd, hQ, hQd]
    simp [hne]
  · intro heq prevId prev hprev hpne hprevA
    cases notifyOk with
    | true =>
      refine ⟨(((db.setAnswer prevId prev.unaccept).setAnswer aid
          answer.accept).setQuestion answer.questionId
          { question with acceptedAnswer := some aid }).addNotification
          ⟨answer.answeredBy, answer.answeredBy, "accept"⟩, ?_, ?_, ?_, ?_⟩
      · simp only [acceptAnswerRoute, hA, hAd, hQ, hQd, hprev, hprevA, heq]
        simp
      · simp [hpne]
      · simp
      · simp
    | false =>
      refine ⟨((db.setAnswer prevId prev.unaccept).setAnswer aid
          answer.accept).setQuestion answer.questionId
          { question with acceptedAnswer := some aid }, ?_, ?_, ?_, ?_⟩
      · simp only [acceptAnswerRoute, hA, hAd, hQ, hQd, hprev, hprevA, heq]
        simp
      · simp [hpne]
      · simp
      · simp

/-- C3 witness: on `exampleDb`, user 11 cannot accept, and the author 10
accepting answer 2 (while 1 is accepted) unaccepts 1, accepts 2, and points
question 0 at 2. -/
theorem acceptAnswer_correct_witness :
    acceptAnswerRoute exampleDb 2 11 true = .error .Forbidden ∧
    ∃ db', acceptAnswerRoute exampleDb 2 10 true = .ok db' ∧
      db'.answers 1 = some exampleAcceptedAnswer.unaccept ∧
      db'.answers 2 = some exampleOtherAnswer.accept ∧
      db'.questions 0 = some { exampleQuestion with acceptedAnswer := some 2 } := by
  constructor
  · exact (acceptAnswer_correct exampleDb 2 11 true exampleOtherAnswer
      exampleQuestion rfl rfl rfl rfl).1 (by decide)
  · exact (acceptAnswer_correct exampleDb 2 10 true exampleOtherAnswer
      exampleQuestion rfl rfl rfl rfl).2 rfl 1 exampleAcceptedAnswer rfl
      (by decide) rfl

/-- C6: a vote request on a live question by its own author, or on a live
answer by its own author, is rejected with `InvalidOperation` (400,
"Cannot vote on your own ..."); the handler rejects before calling `vote`,
so the item's score and ledger are untouched. -/
theorem self_vote_rejected (db : Db) (qid aid : Nat)
    (question : QuestionDoc) (answer : AnswerDoc) (d : VoteDir)
    (notifyOk : Bool)
    (hQ : db.questions qid = some question) (hQd : question.isDeleted = false)
    (hA : db.answers aid = some answer) (hAd : answer.isDeleted = false) :
    voteQuestionRoute db qid question.askedBy d notifyOk
      = .error .InvalidOperation ∧
    voteAnswerRoute db aid answer.answeredBy d notifyOk
      = .error .InvalidOperation := by
  constructor
  · simp only [voteQuestionRoute, hQ]
    simp [hQd]
  · simp only [voteAnswerRoute, hA]
    simp [hAd]

/-- C6 witness: the author of question 0 (user 10) and the author of
answer 1 (user 11) cannot vote on their own items. -/
theorem self_vote_rejected_witness :
    voteQuestionRoute exampleDb 0 exampleQuestion.askedBy VoteDir.up true
      = .error .InvalidOperation ∧
    voteAnswerRoute exampleDb 1 exampleAcceptedAnswer.answeredBy VoteDir.up true
      = .error .InvalidOperation :=
  self_vote_rejected exampleDb 0 1 exampleQuestion exampleAcceptedAnswer
    VoteDir.up true rfl rfl rfl rfl

/-- C7: the unaccept handler, called by the question's author on a live
answer that is not currently accepted, rejects with `InvalidOperation`
(400, "This answer is not currently accepted"); the rejection happens
before any write, so neither the answer's flag nor the question's pointer
changes. -/
theorem unaccept_not_accepted_rejected (db : Db) (aid uid : Nat)
    (answer : AnswerDoc) (question : QuestionDoc)
    (hA : db.answers aid = some answer) (hAd : answer.isDeleted = false)
    (hQ : db.questions answer.questionId = some question)
    (hQd : question.isDeleted = false) (hown : question.askedBy = uid)
    (hacc : answer.isAccepted = false) :
    unacceptAnswerRoute db aid uid = .error .InvalidOperation := by
  simp only [unacceptAnswerRoute, hA, hQ]
  simp [hAd, hQd, hown, hacc]

/-- C7 witness: the author of question 0 unaccepting the not-accepted
answer 2 gets `InvalidOperation`. -/
theorem unaccept_not_accepted_rejected_witness :
    unacceptAnswerRoute exampleDb 2 10 = .error .InvalidOperation :=
  unaccept_not_accepted_rejected exampleDb 2 10 exampleOtherAnswer
    exampleQuestion rfl rfl rfl rfl rfl rfl

/-- The persistent vote/acceptance state of a store: its questions and
answers collections, without the notifications collection. -/
def Db.core (db : Db) :
    (Nat → Option QuestionDoc) × (Nat → Option AnswerDoc) :=
  (db.questions, db.answers)

/-- C9: the accept and vote handlers wrap notification emission in
try/catch, so whether the emission succeeds or fails (`ok₁` vs `ok₂`), the
handler's outcome (success or error, and which error) and the resulting
questions/answers state are identical; for the vote handlers the returned
score is identical too. Only the notifications collection may differ. -/
theorem notification_failure_independent (db : Db) (aid qid uid : Nat)
    (d : VoteDir) (ok1 ok2 : Bool) :
    (acceptAnswerRoute db aid uid ok1).map Db.core
      = (acceptAnswerRoute db aid uid ok2).map Db.core ∧
    (voteQuestionRoute db qid uid d ok1).map (fun r => (r.1.core, r.2))
      = (voteQuestionRoute db qid uid d ok2).map (fun r => (r.1.core, r.2)) ∧
    (voteAnswerRoute db aid uid d ok1).map (fun r => (r.1.core, r.2))
      = (voteAnswerRoute db aid uid d ok2).map (fun r => (r.1.core, r.2)) := by
  refine ⟨?_, ?_, ?_⟩
  · unfold acceptAnswerRoute
    cases db.answers aid with
    | none => rfl
    | some answer =>
      dsimp only
      by_cases hd : answer.isDeleted = true
      · rw [if_pos hd, if_pos hd]
      · rw [if_neg hd, if_neg hd]
        cases db.questions answer.questionId with
        | none => rfl
        | some question =>
          dsimp only
          by_cases hqd : question.isDeleted = true
          · rw [if_pos hqd, if_pos hqd]
          · rw [if_neg hqd, if_neg hqd]
            by_cases hown : question.askedBy ≠ uid
            · rw [if_pos hown, if_pos hown]
            · rw [if_neg hown, if_neg hown]
              cases ok1 <;> cases ok2 <;> rfl
  · unfold voteQuestionRoute
    cases db.questions qid with
    | none => rfl
    | some question =>
      dsimp only
      by_cases hqd : question.isDeleted = true
      · rw [if_pos hqd, if_pos hqd]
      · rw [if_neg hqd, if_neg hqd]
        by_cases hown : question.askedBy = uid
        · rw [if_pos hown, if_pos hown]
        · rw [if_neg hown, if_neg hown]
          have hb : (uid == question.askedBy) = false :=
            beq_eq_false_iff_ne.mpr (fun h => hown h.symm)
          simp only [hb, Bool.not_false, Bool.and_true]
          cases ok1 <;> cases ok2 <;> rfl
  · unfold voteAnswerRoute
    cases db.answers aid with
    | none => rfl
    | some answer =>
      dsimp only
      by_cases hd : answer.isDeleted = true
      · rw [if_pos hd, if_pos hd]
      · rw [if_neg hd, if_neg hd]
        by_cases hown : answer.answeredBy = uid
        · rw [if_pos hown, if_pos hown]
        · rw [if_neg hown, if_neg hown]
          have hb : (uid == answer.answeredBy) = false :=
            beq_eq_false_iff_ne.mpr (fun h => hown h.symm)
          simp only [hb, Bool.not_false, Bool.and_true]
          cases ok1 <;> cases ok2 <;> rfl

/-- C10: the delete handler refuses to touch an answer whose `isAccepted`
flag is true: for any requester (author or admin alike) it responds with an
error (403 if the requester may not delete it at all, otherwise 400
"Cannot delete an accepted answer") and performs no write, so an accepted
answer is never soft-deleted. -/
theorem delete_accepted_answer_rejected (db : Db) (aid uid : Nat)
    (isAdmin : Bool) (answer : AnswerDoc)
    (hA : db.answers aid = some answer) (hacc : answer.isAccepted = true) :
    ∃ e, deleteAnswerRoute db aid uid isAdmin = .error e := by
  simp only [deleteAnswerRoute, hA]
  by_cases hdel : answer.isDeleted = true
  · exact ⟨.NotFound, by simp [hdel]⟩
  · by_cases hown : answer.answeredBy ≠ uid ∧ ¬isAdmin = true
    · exact ⟨.Forbidden, by rw [if_neg hdel, if_pos hown]⟩
    · exact ⟨.InvalidOperation, by rw [if_neg hdel, if_neg hown, if_pos hacc]⟩

/-- C10 witness: answer 1 is accepted, so even its own author (user 11)
cannot delete it. -/
theorem delete_accepted_answer_rejected_witness :
    ∃ e, deleteAnswerRoute exampleDb 1 11 false = .error e :=
  delete_accepted_answer_rejected exampleDb 1 11 false exampleAcceptedAnswer
    rfl rfl

@[simp] theorem accept_isAccepted (a : AnswerDoc) : a.accept.isAccepted = true :=
  rfl

@[simp] theorem accept_questionId (a : AnswerDoc) :
    a.accept.questionId = a.questionId :=
  rfl

@[simp] theorem unaccept_isAccepted (a : AnswerDoc) :
    a.unaccept.isAccepted = false :=
  rfl

@[simp] theorem unaccept_questionId (a : AnswerDoc) :
    a.unaccept.questionId = a.questionId :=
  rfl

/-- Decomposition of a successful accept request: the reads that must have
succeeded, the permission check that must have passed, and the exact
contents of the stores afterwards (the target answer accepted, the
previously pointed-to answer — when present — unaccepted, the question
repointed; nothing else changed). -/
theorem acceptAnswerRoute_ok_shape (db : Db) (aid uid : Nat) (notifyOk : Bool)
    (db' : Db) (hok : acceptAnswerRoute db aid uid notifyOk = .ok db') :
    ∃ answer question,
      db.answers aid = some answer ∧ answer.isDeleted = false ∧
      db.questions answer.questionId = some question ∧
      question.isDeleted = false ∧ question.askedBy = uid ∧
      (∀ i, db'.questions i =
        if i = answer.questionId
        then some { question with acceptedAnswer := some aid }
        else db.questions i) ∧
      (∀ i, db'.answers i =
        if i = aid then some answer.accept
        else
          match question.acceptedAnswer with
          | some prevId =>
            match db.answers prevId with
            | some prev =>
              if i = prevId then some prev.unaccept else db.answers i
            | none => db.answers i
          | none => db.answers i) := by
  unfold acceptAnswerRoute at hok
  cases hA : db.answers aid with
  | none => rw [hA] at hok; cases hok
  | some answer =>
    rw [hA] at hok
    dsimp only at hok
    by_cases hAd : answer.isDeleted = true
    · rw [if_pos hAd] at hok; cases hok
    · rw [if_neg hAd] at hok
      cases hQ : db.questions answer.questionId with
      | none => rw [hQ] at hok; cases hok
      | some question =>
        rw [hQ] at hok
        dsimp only at hok
        by_cases hQd : question.isDeleted = true
        · rw [if_pos hQd] at hok; cases hok
        · rw [if_neg hQd] at hok
          by_cases hown : question.askedBy ≠ uid
          · rw [if_pos hown] at hok; cases hok
          · rw [if_neg hown] at hok
            refine ⟨answer, question, rfl, by simpa using hAd, hQ,
              by simpa using hQd, not_not.mp hown, ?_, ?_⟩
            all_goals
              cases hprev : question.acceptedAnswer with
              | none =>
                rw [hprev] at hok
                dsimp only at hok
                injection hok with hok
                subst hok
                intro i
                cases notifyOk <;> simp [hprev]
              | some prevId =>
                rw [hprev] at hok
                dsimp only at hok
                cases hprevA : db.answers prevId with
                | none =>
                  rw [hprevA] at hok
                  dsimp only at hok
                  injection hok with hok
                  subst hok
                  intro i
                  cases notifyOk <;> simp [hprev, hprevA]
                | some prev =>
                  rw [hprevA] at hok
                  dsimp only at hok
                  injection hok with hok
                  subst hok
                  intro i
                  cases notifyOk <;> simp [hprev, hprevA]

/-- Decomposition of a successful unaccept request: the reads and checks
that must have passed (in particular the target answer was accepted), and
the exact contents of the stores afterwards (the answer's flag cleared, the
question's pointer cleared; nothing else changed). -/
theorem unacceptAnswerRoute_ok_shape (db : Db) (aid uid : Nat) (db' : Db)
    (hok : unacceptAnswerRoute db aid uid = .ok db') :
    ∃ answer question,
      db.answers aid = some answer ∧ answer.isDeleted = false ∧
      db.questions answer.questionId = some question ∧
      question.isDeleted = false ∧ question.askedBy = uid ∧
      answer.isAccepted = true ∧
      (∀ i, db'.questions i =
        if i = answer.questionId
        then some { question with acceptedAnswer := none }
        else db.questions i) ∧
      (∀ i, db'.answers i =
        if i = aid then some answer.unaccept else db.answers i) := by
  unfold unacceptAnswerRoute at hok
  cases hA : db.answers aid with
  | none => rw [hA] at hok; cases hok
  | some answer =>
    rw [hA] at hok
    dsimp only at hok
    by_cases hAd : answer.isDeleted = true
    · rw [if_pos hAd] at hok; cases hok
    · rw [if_neg hAd] at hok
      cases hQ : db.questions answer.questionId with
      | none => rw [hQ] at hok; cases hok
      | some question =>
        rw [hQ] at hok
        dsimp only at hok
        by_cases hQd : question.isDeleted = true
        · rw [if_pos hQd] at hok; cases hok
        · rw [if_neg hQd] at hok
          by_cases hown : question.askedBy ≠ uid
          · rw [if_pos hown] at hok; cases hok
          · rw [if_neg hown] at hok
            by_cases hacc : answer.isAccepted = true
            · rw [if_neg (by simp [hacc])] at hok
              injection hok with hok
              subst hok
              exact ⟨answer, question, rfl, by simpa using hAd, hQ,
                by simpa using hQd, not_not.mp hown, hacc,
                fun i => by simp, fun i => by simp⟩
            · rw [if_pos (by simp [Bool.eq_false_iff.mpr hacc])] at hok
              cases hok

/-- A successful accept preserves the single-accepted-answer invariant at
every question. -/
theorem accept_preserves_inv (db db' : Db) (aid uid : Nat) (notifyOk : Bool)
    (hinv : AcceptInv db)
    (hok : acceptAnswerRoute db aid uid notifyOk = .ok db') :
    AcceptInv db' := by
  obtain ⟨answer, question, hA, hAd, hQ, hQd, hown, hq', ha'⟩ :=
    acceptAnswerRoute_ok_shape db aid uid notifyOk db' hok
  have hinvQ := hinv answer.questionId question hQ
  have hP : ∀ i a', db'.answers i = some a' → a'.isAccepted = true → i ≠ aid →
      db.answers i = some a' ∧ question.acceptedAnswer ≠ some i := by
    intro i a' hia hiacc hne
    rw [ha' i, if_neg hne] at hia
    cases hprev : question.acceptedAnswer with
    | none =>
      rw [hprev] at hia
      dsimp only at hia
      exact ⟨hia, by simp [hprev]⟩
    | some prevId =>
      rw [hprev] at hia
      dsimp only at hia
      cases hprevA : db.answers prevId with
      | none =>
        rw [hprevA] at hia
        dsimp only at hia
        refine ⟨hia, fun hcontra => ?_⟩
        injection hcontra with hcontra
        rw [← hcontra, hprevA] at hia
        cases hia
      | some prev =>
        rw [hprevA] at hia
        dsimp only at hia
        by_cases h3 : i = prevId
        · rw [if_pos h3] at hia
          injection hia with hia
          rw [← hia] at hiacc
          simp at hiacc
        · rw [if_neg h3] at hia
          refine ⟨hia, fun hcontra => ?_⟩
          injection hcontra with hcontra
          exact h3 hcontra.symm
  have hR : ∀ i, i ≠ aid → question.acceptedAnswer ≠ some i →
      db'.answers i = db.answers i := by
    intro i hne hnp
    rw [ha' i, if_neg hne]
    cases hprev : question.acceptedAnswer with
    | none => rfl
    | some prevId =>
      dsimp only
      cases hprevA : db.answers prevId with
      | none => rfl
      | some prev =>
        dsimp only
        have h3 : ¬ i = prevId := fun h => hnp (by rw [hprev, h])
        rw [if_neg h3]
  intro qid q hq
  rw [hq' qid] at hq
  by_cases hqid : qid = answer.questionId
  · rw [if_pos hqid] at hq
    injection hq with hq
    subst hq
    constructor
    · intro aid2 a2 ha2 hq2 hacc2
      show (some aid : Option Nat) = some aid2
      by_cases h2 : aid2 = aid
      · rw [h2]
      · exfalso
        obtain ⟨horig, hnp⟩ := hP aid2 a2 ha2 hacc2 h2
        exact hnp (hinvQ.1 aid2 a2 horig (hq2.trans hqid) hacc2)
    · intro aid2 hp
      have haid : aid = aid2 := by
        have h0 : (some aid : Option Nat) = some aid2 := hp
        injection h0
      subst haid
      refine ⟨answer.accept, ?_, ?_, rfl⟩
      · rw [ha' aid, if_pos rfl]
      · rw [accept_questionId]
        exact hqid.symm
  · rw [if_neg hqid] at hq
    have hinvq := hinv qid q hq
    constructor
    · intro aid2 a2 ha2 hq2 hacc2
      by_cases h2 : aid2 = aid
      · exfalso
        rw [ha' aid2, if_pos h2] at ha2
        injection ha2 with ha2
        apply hqid
        rw [← hq2, ← ha2, accept_questionId]
      · obtain ⟨horig, _⟩ := hP aid2 a2 ha2 hacc2 h2
        exact hinvq.1 aid2 a2 horig hq2 hacc2
    · intro aid2 hp
      obtain ⟨a, haa, haq, hac⟩ := hinvq.2 aid2 hp
      have h2 : aid2 ≠ aid := by
        intro h
        rw [h, hA] at haa
        injection haa with haaa
        exact hqid (by rw [← haq, ← haaa])
      have hnp : question.acceptedAnswer ≠ some aid2 := by
        intro hcontra
        obtain ⟨p, hpA, hpq, hpacc⟩ := hinvQ.2 aid2 hcontra
        rw [haa] at hpA
        injection hpA with hpA
        apply hqid
        rw [← haq, hpA, hpq]
      refine ⟨a, ?_, haq, hac⟩
      rw [hR aid2 h2 hnp]
      exact haa

/-- A successful unaccept preserves the single-accepted-answer invariant at
every question. -/
theorem unaccept_preserves_inv (db db' : Db) (aid uid : Nat)
    (hinv : AcceptInv db)
    (hok : unacceptAnswerRoute db aid uid = .ok db') :
    AcceptInv db' := by
  obtain ⟨answer, question, hA, hAd, hQ, hQd, hown, hacc, hq', ha'⟩ :=
    unacceptAnswerRoute_ok_shape db aid uid db' hok
  have hinvQ := hinv answer.questionId question hQ
  have hptr : question.acceptedAnswer = some aid :=
    hinvQ.1 aid answer hA rfl hacc
  intro qid q hq
  rw [hq' qid] at hq
  by_cases hqid : qid = answer.questionId
  · rw [if_pos hqid] at hq
    injection hq with hq
    subst hq
    constructor
    · intro aid2 a2 ha2 hq2 hacc2
      exfalso
      rw [ha' aid2] at ha2
      by_cases h2 : aid2 = aid
      · rw [if_pos h2] at ha2
        injection ha2 with ha2
        rw [← ha2] at hacc2
        simp at hacc2
      · rw [if_neg h2] at ha2
        have hp := hinvQ.1 aid2 a2 ha2 (hq2.trans hqid) hacc2
        rw [hptr] at hp
        injection hp with hp
        exact h2 hp.symm
    · intro aid2 hp
      have h0 : (none : Option Nat) = some aid2 := hp
      cases h0
  · rw [if_neg hqid] at hq
    have hinvq := hinv qid q hq
    constructor
    · intro aid2 a2 ha2 hq2 hacc2
      rw [ha' aid2] at ha2
      by_cases h2 : aid2 = aid
      · exfalso
        rw [if_pos h2] at ha2
        injection ha2 with ha2
        rw [← ha2] at hacc2
        simp at hacc2
      · rw [if_neg h2] at ha2
        exact hinvq.1 aid2 a2 ha2 hq2 hacc2
    · intro aid2 hp
      obtain ⟨a, haa, haq, hac⟩ := hinvq.2 aid2 hp
      have h2 : aid2 ≠ aid := by
        intro h
        rw [h, hA] at haa
        injection haa with haaa
        exact hqid (by rw [← haq, ← haaa])
      refine ⟨a, ?_, haq, hac⟩
      rw [ha' aid2, if_neg h2]
      exact haa

/-- Each acceptance request — successful or rejected — preserves the
invariant. -/
theorem applyAcceptOp_preserves_inv (db : Db) (op : AcceptOp)
    (hinv : AcceptInv db) : AcceptInv (applyAcceptOp db op) := by
  cases op with
  | accept aid uid =>
    unfold applyAcceptOp
    dsimp only
    cases hok : acceptAnswerRoute db aid uid true with
    | ok db2 => exact accept_preserves_inv db db2 aid uid true hinv hok
    | error e => exact hinv
  | unaccept aid uid =>
    unfold applyAcceptOp
    dsimp only
    cases hok : unacceptAnswerRoute db aid uid with
    | ok db2 => exact unaccept_preserves_inv db db2 aid uid hinv hok
    | error e => exact hinv

theorem applyAcceptOps_preserves_inv (db : Db) (ops : List AcceptOp)
    (hinv : AcceptInv db) : AcceptInv (applyAcceptOps db ops) := by
  induction ops generalizing db with
  | nil => exact hinv
  | cons op rest ih =>
    have hstep : applyAcceptOps db (op :: rest)
        = applyAcceptOps (applyAcceptOp db op) rest := by
      simp [applyAcceptOps]
    rw [hstep]
    exact ih _ (applyAcceptOp_preserves_inv db op hinv)

/-- A store in which no question points at an answer and no answer is
flagged accepted satisfies the invariant. -/
theorem inv_of_clean (db : Db)
    (hq : ∀ qid q, db.questions qid = some q → q.acceptedAnswer = none)
    (ha : ∀ aid a, db.answers aid = some a → a.isAccepted = false) :
    AcceptInv db := by
  intro qid q hqq
  constructor
  · intro aid a haa hqa hacc
    rw [ha aid a haa] at hacc
    cases hacc
  · intro aid hp
    rw [hq qid q hqq] at hp
    cases hp

/-- C1: from a store where every question starts with no accepted answer
(pointer empty, no answer flagged), after any sequence of accept and
unaccept requests, every question has at most one answer with
`isAccepted = true`, and its `acceptedAnswer` pointer is set exactly when
such an answer exists and refers to it. -/
theorem accept_unaccept_invariant (db : Db) (ops : List AcceptOp)
    (hq0 : ∀ qid q, db.questions qid = some q → q.acceptedAnswer = none)
    (ha0 : ∀ aid a, db.answers aid = some a → a.isAccepted = false) :
    ∀ qid q, (applyAcceptOps db ops).questions qid = some q →
      (∀ aid1 a1 aid2 a2,
        (applyAcceptOps db ops).answers aid1 = some a1 →
          a1.questionId = qid → a1.isAccepted = true →
        (applyAcceptOps db ops).answers aid2 = some a2 →
          a2.questionId = qid → a2.isAccepted = true → aid1 = aid2) ∧
      AcceptInvFor (applyAcceptOps db ops) qid q := by
  have hinv := applyAcceptOps_preserves_inv db ops (inv_of_clean db hq0 ha0)
  intro qid q hqq
  have hfor := hinv qid q hqq
  refine ⟨?_, hfor⟩
  intro aid1 a1 aid2 a2 h1 hq1 hc1 h2 hq2 hc2
  have e1 := hfor.1 aid1 a1 h1 hq1 hc1
  have e2 := hfor.1 aid2 a2 h2 hq2 hc2
  rw [e1] at e2
  injection e2

/-- C1 witness: starting from the fresh store and accepting answer 1 then
answer 2 of question 0, the invariant conclusion holds. -/
theorem accept_unaccept_invariant_witness :
    (∀ qid q, exampleFreshDb.questions qid = some q →
      q.acceptedAnswer = none) ∧
    (∀ aid a, exampleFreshDb.answers aid = some a → a.isAccepted = false) ∧
    ∀ qid q,
      (applyAcceptOps exampleFreshDb
        [AcceptOp.accept 1 10, AcceptOp.accept 2 10]).questions qid = some q →
      (∀ aid1 a1 aid2 a2,
        (applyAcceptOps exampleFreshDb
          [AcceptOp.accept 1 10, AcceptOp.accept 2 10]).answers aid1 = some a1 →
          a1.questionId = qid → a1.isAccepted = true →
        (applyAcceptOps exampleFreshDb
          [AcceptOp.accept 1 10, AcceptOp.accept 2 10]).answers aid2 = some a2 →
          a2.questionId = qid → a2.isAccepted = true → aid1 = aid2) ∧
      AcceptInvFor
        (applyAcceptOps exampleFreshDb
          [AcceptOp.accept 1 10, AcceptOp.accept 2 10]) qid q := by
  have h1 : ∀ qid q, exampleFreshDb.questions qid = some q →
      q.acceptedAnswer = none := by
    intro qid q h
    simp only [exampleFreshDb] at h
    split at h
    · cases h; rfl
    · cases h
  have h2 : ∀ aid a, exampleFreshDb.answers aid = some a →
      a.isAccepted = false := by
    intro aid a h
    simp only [exampleFreshDb] at h
    split at h
    · cases h; rfl
    · split at h
      · cases h; rfl
      · cases h
  exact ⟨h1, h2, accept_unaccept_invariant exampleFreshDb
    [AcceptOp.accept 1 10, AcceptOp.accept 2 10] h1 h2⟩

end QA
